import Mathlib

/-!
Shallow embedding of `src/nyu.py` (class `NYUVP`): the NYU-VP dataset reader.

Modelling choices, each tied to the source:
* Python floats are modelled as exact rationals (`ℚ`) for everything the
  program parses and assembles, and as real numbers (`ℝ`) for the two
  norm/normalisation steps (`np.linalg.norm` takes a square root).
* `float(s)` (Python) is modelled by `parseFloat : String → Option ℚ`
  accepting the decimal/scientific grammar; `none` models a `ValueError`.
* Python list indexing `l[i]` with an `Int` index is modelled by `pyGet`
  (negative indices address from the end, exactly Python semantics), and
  `l[i] = v` by `pySet`.
* Exceptions (`ValueError` from `float`, `AssertionError` from the
  `"433q"` sentinel assert, `IndexError`, and the `ValueError` that
  `np.vstack` raises on an empty list) are modelled by `Except Err`.
  `Err.payload` records the data each Python exception object actually
  carries (the offending field text for `float`, the file path for the
  assert, nothing for the others).
* The file system is a map from paths to already-tokenised rows: a `vps*`
  file is a `List (List String)` (the rows `csv.reader` yields, header
  included), a `labelled_lines*` file is a `List LineRow` (the data rows
  `csv.DictReader` yields, one `LineSlot` of four string fields per
  column group `line{i}_x1 .. line{i}_y2`).
* The `scipy.io.loadmat` result is an opaque provider `MatData` of one
  image plane and one depth plane per identifier.  `assemble` returns a
  log of the provider queries it performs so that query counts are part
  of the embedded semantics.
* The dict stored in `self.dataset[key]` holds two float arrays that are
  both computed from the parsed homogeneous VP rows: `datum["VDs"]`
  (computed at line 120-122 from the pre-normalisation rows) and
  `datum["VPs"]` (renormalised in place at lines 140-141).  `Record`
  stores the parsed rational rows; `Record.realVPs` / `Record.realVDs`
  are the two stored arrays, as real-valued views.
-/

set_option maxRecDepth 200000

namespace Nyu

/-- A 3-vector with rational entries (a parsed `np.array` row). -/
@[ext] structure Vec3 where
  x : ℚ
  y : ℚ
  z : ℚ
deriving DecidableEq, Repr

/-- A 3-vector with real entries (result of the normalisation steps). -/
@[ext] structure RVec3 where
  x : ℝ
  y : ℝ
  z : ℝ

/-- Squared Euclidean norm of a rational 3-vector. -/
def normSq (v : Vec3) : ℚ := v.x ^ 2 + v.y ^ 2 + v.z ^ 2

/-- Euclidean norm (`np.linalg.norm`) of a rational 3-vector, in `ℝ`. -/
noncomputable def vnorm (v : Vec3) : ℝ := Real.sqrt ((normSq v : ℚ) : ℝ)

/-- Euclidean norm of a real 3-vector. -/
noncomputable def rnorm (v : RVec3) : ℝ := Real.sqrt (v.x ^ 2 + v.y ^ 2 + v.z ^ 2)

/-- `v /= np.linalg.norm(v)` : divide each component by the Euclidean norm. -/
noncomputable def rnormalize (v : Vec3) : RVec3 :=
  ⟨(v.x : ℝ) / vnorm v, (v.y : ℝ) / vnorm v, (v.z : ℝ) / vnorm v⟩

/-- `fx_rgb` from `nyu.py` line 50. -/
def fx_rgb : ℚ := 5.1885790117450188e2
/-- `fy_rgb` from `nyu.py` line 51. -/
def fy_rgb : ℚ := 5.1946961112127485e2
/-- `cx_rgb` from `nyu.py` line 52. -/
def cx_rgb : ℚ := 3.2558244941119034e2
/-- `cy_rgb` from `nyu.py` line 53. -/
def cy_rgb : ℚ := 2.5373616633400465e2

/-- The intrinsics matrix `K = [[fx,0,cx],[0,fy,cy],[0,0,1]]` (line 55),
applied to a 3-vector. -/
def KApply (v : Vec3) : Vec3 :=
  ⟨fx_rgb * v.x + cx_rgb * v.z, fy_rgb * v.y + cy_rgb * v.z, v.z⟩

/-- `self.Kinv = K.I` (line 57), applied to a 3-vector: the exact inverse of
the upper-triangular `K`. -/
def kinvApply (v : Vec3) : Vec3 :=
  ⟨(v.x - cx_rgb * v.z) / fx_rgb, (v.y - cy_rgb * v.z) / fy_rgb, v.z⟩

/-- The inverse intrinsics applied to a homogeneous pixel `(x, y, 1)` with
real coordinates (the idealised back-projection of an arbitrary pixel). -/
noncomputable def kinvHomR (x y : ℝ) : RVec3 :=
  ⟨(x - (cx_rgb : ℝ)) / (fx_rgb : ℝ), (y - (cy_rgb : ℝ)) / (fy_rgb : ℝ), 1⟩

/-!  ### Modelling `float(s)`

Python's `float` accepts an optionally signed decimal literal with an
optional fraction and an optional exponent, surrounded by optional
whitespace; on any other string it raises `ValueError`.  (The `inf`/`nan`
spellings and `_` digit separators never occur in this dataset and are
not modelled.)  `parseFloat` returns the exact rational value. -/

/-- Consume leading decimal digits; return their value, how many there
were, and the rest of the characters. -/
def takeDigits : List Char → ℕ × ℕ × List Char
  | [] => (0, 0, [])
  | c :: cs =>
    if c.isDigit then
      let r := takeDigits cs
      ((c.toNat - 48) * 10 ^ r.2.1 + r.1, r.2.1 + 1, r.2.2)
    else (0, 0, c :: cs)

/-- Consume an optional leading sign; return whether it was `-`. -/
def takeSign : List Char → Bool × List Char
  | '-' :: cs => (true, cs)
  | '+' :: cs => (false, cs)
  | cs => (false, cs)

/-- Parse the optional exponent suffix after mantissa `m`, requiring the
remaining characters to be empty or exactly `e`/`E`, an optional sign and
at least one digit. -/
def withExponent (m : ℚ) : List Char → Option ℚ
  | [] => some m
  | c :: cs =>
    if c = 'e' ∨ c = 'E' then
      let s := takeSign cs
      let d := takeDigits s.2
      if d.2.1 = 0 then none
      else match d.2.2 with
        | [] => some (if s.1 then m / 10 ^ d.1 else m * 10 ^ d.1)
        | _ :: _ => none
    else none

/-- The whitespace characters `float` strips from both ends. -/
def wsChar (c : Char) : Bool :=
  c = ' ' || c = '\t' || c = '\n' || c = '\r' || c = '\x0b' || c = '\x0c'

/-- Strip leading and trailing whitespace from a character list. -/
def trimChars (cs : List Char) : List Char :=
  ((cs.dropWhile wsChar).reverse.dropWhile wsChar).reverse

/-- `float(s)` for a Python string `s`: `some q` on success, `none` for a
`ValueError`. -/
def parseFloat (s : String) : Option ℚ :=
  let cs0 := trimChars s.toList
  let sg := takeSign cs0
  let ip := takeDigits sg.2
  let body : Option ℚ :=
    match ip.2.2 with
    | '.' :: cs2 =>
      let fp := takeDigits cs2
      if ip.2.1 + fp.2.1 = 0 then none
      else withExponent ((ip.1 : ℚ) + (fp.1 : ℚ) / 10 ^ fp.2.1) fp.2.2
    | rest =>
      if ip.2.1 = 0 then none else withExponent (ip.1 : ℚ) rest
  match body with
  | none => none
  | some m => some (if sg.1 then -m else m)

/-!  ### Exceptions, file contents, and the dataset class -/

/-- The exceptions `NYUVP.__getitem__` can raise:
* `valueError s` — `float(s)` failed (`ValueError`); the exception
  argument is the offending field text `s`;
* `assertError p` — the `assert False, self.labelled_line_files[id]`
  triggered by the `"433q"` sentinel (line 96-97); the exception argument
  is the file path `p`;
* `indexError` — a list subscript out of range (`IndexError`, carries no
  data beyond a fixed message);
* `vstackError` — `np.vstack` applied to an empty list (`ValueError`,
  carries no path/row data). -/
inductive Err where
  | valueError (s : String)
  | assertError (p : String)
  | indexError
  | vstackError
deriving DecidableEq, Repr

/-- The data the raised Python exception object carries (its `args`). -/
def Err.payload : Err → List String
  | .valueError s => [s]
  | .assertError p => [p]
  | .indexError => []
  | .vstackError => []

/-- One labelled line segment `np.array([p1x, p1y, p2x, p2y])` (line 100). -/
@[ext] structure Seg where
  p1x : ℚ
  p1y : ℚ
  p2x : ℚ
  p2y : ℚ
deriving DecidableEq, Repr

/-- The four fields `line{i}_x1, line{i}_y1, line{i}_x2, line{i}_y2` of one
slot `i` of a `labelled_lines` row, as raw strings. -/
structure LineSlot where
  x1 : String
  y1 : String
  x2 : String
  y2 : String
deriving DecidableEq, Repr

/-- One data row of a `labelled_lines` file as `csv.DictReader` yields it:
the four slots `i = 1..4`. -/
structure LineRow where
  s1 : LineSlot
  s2 : LineSlot
  s3 : LineSlot
  s4 : LineSlot
deriving DecidableEq, Repr

/-- The slots of a row in the order `i = 1, 2, 3, 4` the loop visits. -/
def LineRow.slots (r : LineRow) : List LineSlot := [r.s1, r.s2, r.s3, r.s4]

/-- Parse one populated slot (lines 93-100): `float` on `x1`, `y1`, `x2`,
then the `"433q"` sentinel assert on the raw `y2` text, then `float` on
`y2`.  `fp` is the labelled-lines file path (the assert's message). -/
def parseSlot (fp : String) (s : LineSlot) : Except Err Seg :=
  match parseFloat s.x1 with
  | none => .error (.valueError s.x1)
  | some p1x =>
    match parseFloat s.y1 with
    | none => .error (.valueError s.y1)
    | some p1y =>
      match parseFloat s.x2 with
      | none => .error (.valueError s.x2)
      | some p2x =>
        if s.y2 = "433q" then .error (.assertError fp)
        else
          match parseFloat s.y2 with
          | none => .error (.valueError s.y2)
          | some p2y => .ok ⟨p1x, p1y, p2x, p2y⟩

/-- The slot loop of lines 84-102: visit slots in order, stop (`break`) at
the first slot whose `x1` field is the empty string, collect the parsed
segments of the slots before it. -/
def parseSlots (fp : String) : List LineSlot → Except Err (List Seg)
  | [] => .ok []
  | s :: rest =>
    if s.x1 = "" then .ok []
    else
      match parseSlot fp s with
      | .error e => .error e
      | .ok seg =>
        match parseSlots fp rest with
        | .error e => .error e
        | .ok segs => .ok (seg :: segs)

/-- One `labelled_lines` row: the slot loop followed by
`np.vstack(lines_per_vp)` (line 103), which raises on an empty list. -/
def parseLineRow (fp : String) (r : LineRow) : Except Err (List Seg) :=
  match parseSlots fp r.slots with
  | .error e => .error e
  | .ok [] => .error .vstackError
  | .ok segs => .ok segs

/-- A Python `for` loop over rows that appends one parsed result per row
and lets exceptions propagate. -/
def mapExcept (f : α → Except Err β) : List α → Except Err (List β)
  | [] => .ok []
  | a :: l =>
    match f a with
    | .error e => .error e
    | .ok b =>
      match mapExcept f l with
      | .error e => .error e
      | .ok bs => .ok (b :: bs)

/-- One data row of a `vps` file (lines 113-117): `row[1]` and `row[2]`
are parsed with `float` and packed as the homogeneous vector `(x, y, 1)`. -/
def parseVpRow (row : List String) : Except Err Vec3 :=
  match row[1]? with
  | none => .error .indexError
  | some s1 =>
    match parseFloat s1 with
    | none => .error (.valueError s1)
    | some x =>
      match row[2]? with
      | none => .error .indexError
      | some s2 =>
        match parseFloat s2 with
        | none => .error (.valueError s2)
        | some y => .ok ⟨x, y, 1⟩

/-- A whole `vps` file (lines 108-123): skip the header row (`ri == 0`),
parse every data row, then `np.vstack(vp_list)` which raises on an empty
list. -/
def parseVpsFile (rows : List (List String)) : Except Err (List Vec3) :=
  match mapExcept parseVpRow (rows.drop 1) with
  | .error e => .error e
  | .ok [] => .error .vstackError
  | .ok vps => .ok vps

/-- An image or depth plane extracted from the MAT archive (opaque data). -/
abbrev Plane := List ℚ

/-- The result of `scipy.io.loadmat(...)`: one image plane and one depth
plane per identifier. -/
structure MatData where
  images : ℕ → Plane
  depths : ℕ → Plane

/-- One provider access: `data_mat["images"][:, :, :, id]` or
`data_mat["depths"][..., id]`. -/
inductive Query where
  | images (id : ℕ)
  | depths (id : ℕ)
deriving DecidableEq, Repr

/-- The file system: contents of a `vps` file / `labelled_lines` file at a
given path (rows as the csv readers yield them). -/
structure FS where
  vpsContent : String → List (List String)
  lineContent : String → List LineRow

/-- The dict `datum` assembled at lines 131-138.  The two float arrays it
holds (`datum["VDs"]`, and `datum["VPs"]` after the in-place
renormalisation of lines 140-141) are functions of the parsed homogeneous
VP rows and are exposed as the views `Record.realVDs` / `Record.realVPs`. -/
structure Record where
  VPs : List Vec3
  id : ℕ
  image : Option Plane
  labelled_lines : List (List Seg)
  depth : Option Plane
deriving DecidableEq

/-- `datum["VPs"]` as returned: every assembled row divided in place by
its Euclidean norm (lines 140-141). -/
noncomputable def Record.realVPs (r : Record) : List RVec3 :=
  r.VPs.map rnormalize

/-- `datum["VDs"]` as returned: `normalize(Kinv @ vp)` for each parsed
homogeneous row `vp`, computed before the final VP renormalisation
(lines 120-122). -/
noncomputable def Record.realVDs (r : Record) : List RVec3 :=
  r.VPs.map (fun v => rnormalize (kinvApply v))

/-- Python list subscript normalisation: `l[i]` for an `Int` index over a
list of length `n` addresses `i` if `0 ≤ i < n` and `n + i` if
`-n ≤ i < 0`, and raises `IndexError` otherwise. -/
def pyIdx (n : ℕ) (i : ℤ) : Option ℕ :=
  if 0 ≤ i then
    if i < (n : ℤ) then some i.toNat else none
  else
    if -i ≤ (n : ℤ) then some (n - (-i).toNat) else none

/-- Python `l[i]` (read). -/
def pyGet (l : List α) (i : ℤ) : Option α :=
  match pyIdx l.length i with
  | none => none
  | some j => l[j]?

/-- Python `l[i] = a` (write; only reached in the source after a
successful read at the same subscript, hence always in range there). -/
def pySet (l : List α) (i : ℤ) (a : α) : List α :=
  match pyIdx l.length i with
  | none => l
  | some j => l.set j a

/-- The state of an `NYUVP` object. -/
structure NYUVP where
  keep_in_mem : Bool
  vps_files : List String
  labelled_line_files : List String
  set_ids : List ℕ
  dataset : List (Option Record)
  data_mat : Option MatData

/-- `NYUVP.__init__`: `set_ids = list(range(0, 1449))`, one empty cache
slot per id, the optional MAT provider, and the two sorted path lists
(the glob and sort of lines 35-39 are modelled by taking the sorted path
lists as given, since no claim concerns the ordering rule itself). -/
def NYUVP.init (vpsFiles lineFiles : List String) (keep : Bool)
    (mat : Option MatData) : NYUVP :=
  { keep_in_mem := keep
    vps_files := vpsFiles
    labelled_line_files := lineFiles
    set_ids := List.range 1449
    dataset := List.replicate 1449 none
    data_mat := mat }

/-- `NYUVP.__len__`. -/
def NYUVP.len (st : NYUVP) : ℕ := st.dataset.length

/-- Record assembly of lines 72-141 for a cache miss: image extraction,
labelled-lines parsing, vps parsing, depth extraction, dict assembly.
Returns the record together with the log of MAT-provider queries made
(`images` before `depths`, matching the source order; the provider lookup
is a pure read, so folding it into the success value is faithful for
every successful assembly). -/
def assemble (fs : FS) (st : NYUVP) (id : ℕ) :
    Except Err (Record × List Query) :=
  match pyGet st.labelled_line_files (id : ℤ) with
  | none => .error .indexError
  | some lp =>
    match mapExcept (parseLineRow lp) (fs.lineContent lp) with
    | .error e => .error e
    | .ok lls =>
      match pyGet st.vps_files (id : ℤ) with
      | none => .error .indexError
      | some vp =>
        match parseVpsFile (fs.vpsContent vp) with
        | .error e => .error e
        | .ok vps =>
          .ok ({ VPs := vps
                 id := id
                 image :=
                   match st.data_mat with
                   | some m => some (m.images id)
                   | none => none
                 labelled_lines := lls
                 depth :=
                   match st.data_mat with
                   | some m => some (m.depths id)
                   | none => none },
               (match st.data_mat with
                | some _ => [Query.images id]
                | none => []) ++
               (match st.data_mat with
                | some _ => [Query.depths id]
                | none => []))

/-- `NYUVP.__getitem__`: resolve `id = set_ids[key]`, check the cache slot
`dataset[key]`, on a miss assemble the record and, if
`keep_data_in_memory`, store it back into `dataset[key]`.  The third
result component is the log of MAT-provider queries performed by the
call. -/
def getitem (fs : FS) (st : NYUVP) (key : ℤ) :
    Except Err (Record × NYUVP × List Query) :=
  match pyGet st.set_ids key with
  | none => .error .indexError
  | some id =>
    match pyGet st.dataset key with
    | none => .error .indexError
    | some (some datum) => .ok (datum, st, [])
    | some none =>
      match assemble fs st id with
      | .error e => .error e
      | .ok (datum, qs) =>
        .ok (datum,
             if st.keep_in_mem then
               { st with dataset := pySet st.dataset key (some datum) }
             else st,
             qs)

/-!  ### Lemmas about the loop and indexing combinators -/

/-!  ### Specifications of the two file parsers -/

/-!  ### Concrete environments used to exercise the theorems -/

/-- An empty labelled-lines slot. -/
def emptySlot : LineSlot := ⟨"", "", "", ""⟩

/-- The labelled-lines row of the end-to-end scenario:
`line1_x1=1, line1_y1=2, line1_x2=3, line1_y2=4, line2_x1=""`. -/
def rowEx : LineRow := ⟨⟨"1", "2", "3", "4"⟩, emptySlot, emptySlot, emptySlot⟩

/-- The `vps` file of the end-to-end scenario: a header row and two data
rows with pixel coordinates `(100, 200)` and `(50, 60)`. -/
def vpsRowsEx : List (List String) :=
  [["hid", "hx", "hy"], ["0", "100.0", "200.0"], ["1", "50.0", "60.0"]]

/-- File system holding the scenario files at every path. -/
def fsEx : FS := ⟨fun _ => vpsRowsEx, fun _ => [rowEx]⟩

/-- Fresh dataset object, caching on, no MAT file. -/
def stEx : NYUVP := NYUVP.init ["pv"] ["pl"] true none

/-- Fresh dataset object, caching off, no MAT file. -/
def stExNoCache : NYUVP := NYUVP.init ["pv"] ["pl"] false none

/-- The record `get(0)` assembles from `fsEx`. -/
def rEx : Record :=
  { VPs := [⟨100, 200, 1⟩, ⟨50, 60, 1⟩]
    id := 0
    image := none
    labelled_lines := [[⟨1, 2, 3, 4⟩]]
    depth := none }

/-- The state after `get(0)` cached `rEx`. -/
def stExAfter : NYUVP := { stEx with dataset := pySet stEx.dataset 0 (some rEx) }

/-- A MAT provider with distinguishable planes. -/
def matEx : MatData := ⟨fun i => [(i : ℚ), 1], fun i => [(i : ℚ), 2]⟩

/-- Fresh dataset object with the MAT provider configured. -/
def stExMat : NYUVP := NYUVP.init ["pv"] ["pl"] true (some matEx)

/-- The record `get(0)` assembles when the MAT provider is configured. -/
def rExMat : Record :=
  { VPs := [⟨100, 200, 1⟩, ⟨50, 60, 1⟩]
    id := 0
    image := some [0, 1]
    labelled_lines := [[⟨1, 2, 3, 4⟩]]
    depth := some [0, 2] }

/-- The state after `get(0)` cached `rExMat`. -/
def stExMatAfter : NYUVP :=
  { stExMat with dataset := pySet stExMat.dataset 0 (some rExMat) }

/-- A dataset object whose two path lists have the full length 1449, so
that every ordinal resolves to a file. -/
def stBig : NYUVP :=
  NYUVP.init (List.replicate 1449 "pv") (List.replicate 1449 "pl") true none

/-- Whether a `__getitem__` outcome is a normal return (no exception). -/
def gotOk : Except Err (Record × NYUVP × List Query) → Bool
  | .ok _ => true
  | .error _ => false

/-- The `id` field of a normally returned record. -/
def gotId : Except Err (Record × NYUVP × List Query) → Option ℕ
  | .ok t => some t.1.id
  | .error _ => none

/-- A `vps` file whose first data row has the non-numeric text `12a` in
column 1. -/
def fsBadVps : FS :=
  ⟨fun _ => [["hid", "hx", "hy"], ["0", "12a", "200.0"]], fun _ => [rowEx]⟩

/-- A labelled-lines file whose first row carries the corrupt sentinel
`433q` in its `line1_y2` field. -/
def fsSentinel : FS :=
  ⟨fun _ => vpsRowsEx, fun _ => [⟨⟨"1", "2", "3", "433q"⟩, emptySlot, emptySlot, emptySlot⟩]⟩

/-!  ### The claims -/

/-!  ### Theorems -/

theorem fx_rgb_ne_zero : fx_rgb ≠ 0 := by norm_num [fx_rgb]
theorem fy_rgb_ne_zero : fy_rgb ≠ 0 := by norm_num [fy_rgb]

/-- `Kinv` really is the inverse of `K`: applying `K` after `Kinv` is the
identity. -/
theorem KApply_kinvApply (v : Vec3) : KApply (kinvApply v) = v := by
  unfold KApply kinvApply
  ext
  · field_simp [fx_rgb_ne_zero]
  · field_simp [fy_rgb_ne_zero]
  · rfl

/-- Applying `Kinv` after `K` is the identity. -/
theorem kinvApply_KApply (v : Vec3) : kinvApply (KApply v) = v := by
  unfold KApply kinvApply
  ext
  · field_simp [fx_rgb_ne_zero]
  · field_simp [fy_rgb_ne_zero]
  · rfl

theorem normSq_nonneg (v : Vec3) : 0 ≤ normSq v := by
  unfold normSq
  positivity

/-- A vector whose third component is `1` has squared norm at least `1`. -/
theorem one_le_normSq_of_z_eq_one (v : Vec3) (h : v.z = 1) : 1 ≤ normSq v := by
  unfold normSq
  rw [h]
  nlinarith [sq_nonneg v.x, sq_nonneg v.y]

/-- `Kinv` preserves the third (homogeneous) component. -/
theorem kinvApply_z (v : Vec3) : (kinvApply v).z = v.z := rfl

theorem vnorm_pos_of_normSq_ne_zero (v : Vec3) (h : normSq v ≠ 0) :
    0 < vnorm v := by
  unfold vnorm
  have h0 : (0 : ℚ) < normSq v := lt_of_le_of_ne (normSq_nonneg v) (Ne.symm h)
  have : (0 : ℝ) < ((normSq v : ℚ) : ℝ) := by exact_mod_cast h0
  exact Real.sqrt_pos.mpr this

/-- Dividing a nonzero vector by its Euclidean norm yields a unit vector:
this is the common fact behind lines 121 and 140-141 of `nyu.py`. -/
theorem rnorm_rnormalize (v : Vec3) (h : normSq v ≠ 0) :
    rnorm (rnormalize v) = 1 := by
  have hpos : 0 < vnorm v := vnorm_pos_of_normSq_ne_zero v h
  have hne : vnorm v ≠ 0 := ne_of_gt hpos
  have hsq : vnorm v ^ 2 = ((normSq v : ℚ) : ℝ) := by
    unfold vnorm
    rw [sq]
    exact Real.mul_self_sqrt (by exact_mod_cast normSq_nonneg v)
  unfold rnorm rnormalize
  have hsum : ((v.x : ℝ) / vnorm v) ^ 2 + ((v.y : ℝ) / vnorm v) ^ 2 +
      ((v.z : ℝ) / vnorm v) ^ 2 = 1 := by
    have hcast : ((normSq v : ℚ) : ℝ) = (v.x : ℝ) ^ 2 + (v.y : ℝ) ^ 2 + (v.z : ℝ) ^ 2 := by
      unfold normSq
      push_cast
      ring
    field_simp
    rw [hsq, hcast]
  rw [hsum, Real.sqrt_one]

theorem mapExcept_ok_length {f : α → Except Err β} :
    ∀ {l : List α} {bs : List β}, mapExcept f l = .ok bs → bs.length = l.length := by
  intro l
  induction l with
  | nil =>
    intro bs h
    simp only [mapExcept] at h
    cases h
    rfl
  | cons a l ih =>
    intro bs h
    simp only [mapExcept] at h
    cases hfa : f a with
    | error e => rw [hfa] at h; cases h
    | ok b =>
      rw [hfa] at h
      cases hml : mapExcept f l with
      | error e => rw [hml] at h; cases h
      | ok bs' =>
        rw [hml] at h
        cases h
        simp [ih hml]

theorem mapExcept_ok_get? {f : α → Except Err β} :
    ∀ {l : List α} {bs : List β}, mapExcept f l = .ok bs →
      ∀ (i : ℕ) (b : β), bs[i]? = some b → ∃ a, l[i]? = some a ∧ f a = .ok b := by
  intro l
  induction l with
  | nil =>
    intro bs h i b hb
    simp only [mapExcept] at h
    cases h
    simp at hb
  | cons a l ih =>
    intro bs h i b hb
    simp only [mapExcept] at h
    cases hfa : f a with
    | error e => rw [hfa] at h; cases h
    | ok b0 =>
      rw [hfa] at h
      cases hml : mapExcept f l with
      | error e => rw [hml] at h; cases h
      | ok bs' =>
        rw [hml] at h
        cases h
        cases i with
        | zero =>
          simp at hb
          exact ⟨a, by simp, hb ▸ hfa⟩
        | succ i =>
          simp only [List.getElem?_cons_succ] at hb ⊢
          exact ih hml i b hb

theorem mapExcept_ok_mem {f : α → Except Err β} :
    ∀ {l : List α} {bs : List β}, mapExcept f l = .ok bs →
      ∀ b ∈ bs, ∃ a ∈ l, f a = .ok b := by
  intro l
  induction l with
  | nil =>
    intro bs h b hb
    simp only [mapExcept] at h
    cases h
    simp at hb
  | cons a l ih =>
    intro bs h b hb
    simp only [mapExcept] at h
    cases hfa : f a with
    | error e => rw [hfa] at h; cases h
    | ok b0 =>
      rw [hfa] at h
      cases hml : mapExcept f l with
      | error e => rw [hml] at h; cases h
      | ok bs' =>
        rw [hml] at h
        cases h
        rcases List.mem_cons.mp hb with hb | hb
        · exact ⟨a, List.mem_cons_self .., hb ▸ hfa⟩
        · obtain ⟨a', ha', hfa'⟩ := ih hml b hb
          exact ⟨a', List.mem_cons_of_mem _ ha', hfa'⟩

theorem pyIdx_lt {n : ℕ} {i : ℤ} {j : ℕ} (h : pyIdx n i = some j) : j < n := by
  unfold pyIdx at h
  split at h
  · split at h
    · cases h; omega
    · cases h
  · split at h
    · cases h; omega
    · cases h

/-- On a list of replicated `none`s (the fresh cache), a successful read
returns `none`. -/
theorem pyGet_replicate_none {n : ℕ} {i : ℤ} {j : ℕ}
    (h : pyIdx n i = some j) :
    pyGet (List.replicate n (none : Option Record)) i = some none := by
  unfold pyGet
  rw [List.length_replicate, h]
  show (List.replicate n (none : Option Record))[j]? = some none
  rw [List.getElem?_replicate_of_lt (pyIdx_lt h)]

theorem pyGet_range {n : ℕ} {i : ℤ} {j : ℕ} (h : pyIdx n i = some j) :
    pyGet (List.range n) i = some j := by
  unfold pyGet
  rw [List.length_range, h]
  show (List.range n)[j]? = some j
  rw [List.getElem?_range (pyIdx_lt h)]

/-- Writing then reading the same Python subscript returns the written
value (the subscript being in range). -/
theorem pyGet_pySet_self {l : List α} {i : ℤ} {j : ℕ} (a : α)
    (h : pyIdx l.length i = some j) :
    pyGet (pySet l i a) i = some a := by
  unfold pyGet pySet
  rw [h, List.length_set, h]
  show (l.set j a)[j]? = some a
  rw [List.getElem?_set_self (by simpa using pyIdx_lt h)]

/-- `pyGet` over `List.range n` only succeeds via `pyIdx`. -/
theorem pyGet_range_eq_none {n : ℕ} {i : ℤ} (h : pyIdx n i = none) :
    pyGet (List.range n) i = none := by
  unfold pyGet
  rw [List.length_range, h]

/-- A successfully parsed `vps` data row is the homogeneous vector built
from the `float`-parsed columns 1 and 2. -/
theorem parseVpRow_ok {row : List String} {v : Vec3}
    (h : parseVpRow row = .ok v) :
    ∃ sx sy, row[1]? = some sx ∧ row[2]? = some sy ∧
      ∃ x y, parseFloat sx = some x ∧ parseFloat sy = some y ∧
        v = ⟨x, y, 1⟩ := by
  unfold parseVpRow at h
  cases h1 : row[1]? with
  | none => simp [h1] at h
  | some s1 =>
    simp only [h1] at h
    cases hx : parseFloat s1 with
    | none => simp [hx] at h
    | some x =>
      simp only [hx] at h
      cases h2 : row[2]? with
      | none => simp [h2] at h
      | some s2 =>
        simp only [h2] at h
        cases hy : parseFloat s2 with
        | none => simp [hy] at h
        | some y =>
          simp only [hy, Except.ok.injEq] at h
          subst h
          exact ⟨s1, s2, rfl, rfl, x, y, hx, hy, rfl⟩

/-- A successfully parsed `vps` file yields a nonempty list of rows, each
the homogeneous `(x, y, 1)` parsed from columns 1 and 2 of the matching
data row (data row `i` is file row `i + 1`, the header being skipped). -/
theorem parseVpsFile_ok {rows : List (List String)} {vps : List Vec3}
    (h : parseVpsFile rows = .ok vps) :
    vps ≠ [] ∧
    (∀ v ∈ vps, v.z = 1) ∧
    ∀ (i : ℕ) (v : Vec3), vps[i]? = some v →
      ∃ row, rows[i + 1]? = some row ∧ parseVpRow row = .ok v := by
  unfold parseVpsFile at h
  cases hm : mapExcept parseVpRow (rows.drop 1) with
  | error e => rw [hm] at h; cases h
  | ok vps' =>
    rw [hm] at h
    cases vps' with
    | nil => cases h
    | cons v0 vtl =>
      cases h
      refine ⟨by simp, ?_, ?_⟩
      · intro v hv
        obtain ⟨row, _, hrow⟩ := mapExcept_ok_mem hm v hv
        obtain ⟨sx, sy, _, _, x, y, _, _, hv'⟩ := parseVpRow_ok hrow
        rw [hv']
      · intro i v hv
        obtain ⟨row, hrow, hok⟩ := mapExcept_ok_get? hm i v hv
        refine ⟨row, ?_, hok⟩
        rw [← hrow, List.getElem?_drop]
        congr 1
        omega

/-- The slot loop returns exactly the parses of the maximal prefix of
slots with a nonempty `x1` field: every returned segment comes from the
slot at the same index (which was populated), and if the loop stopped
early the next slot's `x1` is the empty string. -/
theorem parseSlots_ok {fp : String} :
    ∀ {l : List LineSlot} {segs : List Seg}, parseSlots fp l = .ok segs →
      segs.length ≤ l.length ∧
      (∀ (i : ℕ) (seg : Seg), segs[i]? = some seg →
        ∃ s, l[i]? = some s ∧ s.x1 ≠ "" ∧ parseSlot fp s = .ok seg) ∧
      (segs.length < l.length → ∃ s, l[segs.length]? = some s ∧ s.x1 = "") := by
  intro l
  induction l with
  | nil =>
    intro segs h
    simp only [parseSlots] at h
    cases h
    exact ⟨Nat.le_refl _, by simp, by simp⟩
  | cons s rest ih =>
    intro segs h
    simp only [parseSlots] at h
    by_cases hx : s.x1 = ""
    · rw [if_pos hx] at h
      cases h
      refine ⟨by simp, by simp, ?_⟩
      intro _
      exact ⟨s, by simp, hx⟩
    · rw [if_neg hx] at h
      cases hps : parseSlot fp s with
      | error e => rw [hps] at h; cases h
      | ok seg0 =>
        rw [hps] at h
        cases hrest : parseSlots fp rest with
        | error e => rw [hrest] at h; cases h
        | ok segs2 =>
          rw [hrest] at h
          cases h
          obtain ⟨hlen, hget, hstop⟩ := ih hrest
          refine ⟨by simpa using Nat.succ_le_succ hlen, ?_, ?_⟩
          · intro i seg hseg
            cases i with
            | zero =>
              simp only [List.getElem?_cons_zero, Option.some.injEq] at hseg
              subst hseg
              exact ⟨s, by simp, hx, hps⟩
            | succ i =>
              simp only [List.getElem?_cons_succ] at hseg ⊢
              exact hget i seg hseg
          · intro hlt
            simp only [List.length_cons] at hlt
            obtain ⟨s2, hs2, hxs2⟩ := hstop (by omega)
            exact ⟨s2, by simpa using hs2, hxs2⟩

/-- A successfully parsed `labelled_lines` row yields between 1 and 4
segments: the parses of the maximal prefix of populated slots. -/
theorem parseLineRow_ok {fp : String} {r : LineRow} {segs : List Seg}
    (h : parseLineRow fp r = .ok segs) :
    1 ≤ segs.length ∧ segs.length ≤ 4 ∧
    (∀ (i : ℕ) (seg : Seg), segs[i]? = some seg →
      ∃ s, r.slots[i]? = some s ∧ s.x1 ≠ "" ∧ parseSlot fp s = .ok seg) ∧
    (segs.length < 4 → ∃ s, r.slots[segs.length]? = some s ∧ s.x1 = "") := by
  unfold parseLineRow at h
  cases hps : parseSlots fp r.slots with
  | error e => rw [hps] at h; cases h
  | ok segs2 =>
    rw [hps] at h
    cases segs2 with
    | nil => cases h
    | cons a tl =>
      cases h
      obtain ⟨hlen, hget, hstop⟩ := parseSlots_ok hps
      have h4 : r.slots.length = 4 := rfl
      rw [h4] at hlen hstop
      exact ⟨Nat.succ_le_succ (Nat.zero_le _), hlen, hget, hstop⟩

/-- A successful `pyGet` goes through a successful `pyIdx`. -/
theorem pyGet_some_pyIdx {l : List α} {i : ℤ} {a : α}
    (h : pyGet l i = some a) :
    ∃ j, pyIdx l.length i = some j ∧ l[j]? = some a := by
  unfold pyGet at h
  cases hj : pyIdx l.length i with
  | none => rw [hj] at h; cases h
  | some j => rw [hj] at h; exact ⟨j, rfl, h⟩

/-- Decomposition of a successful `__getitem__` on a freshly constructed
`NYUVP` (all cache slots `None`): the returned record is the assembled
one, and the final state stores it at the requested subscript exactly
when caching is on. -/
theorem getitem_init_ok {fs : FS} {vf lf : List String} {keep : Bool}
    {mat : Option MatData} {key : ℤ} {r : Record} {st2 : NYUVP}
    {qs : List Query}
    (h : getitem fs (NYUVP.init vf lf keep mat) key = .ok (r, st2, qs)) :
    ∃ id, pyGet (NYUVP.init vf lf keep mat).set_ids key = some id ∧
      assemble fs (NYUVP.init vf lf keep mat) id = .ok (r, qs) ∧
      st2 = (if keep then
               { NYUVP.init vf lf keep mat with
                 dataset := pySet (NYUVP.init vf lf keep mat).dataset key (some r) }
             else NYUVP.init vf lf keep mat) := by
  unfold getitem at h
  cases hid : pyGet (NYUVP.init vf lf keep mat).set_ids key with
  | none => simp only [hid] at h; cases h
  | some id =>
    have hset : (NYUVP.init vf lf keep mat).set_ids = List.range 1449 := rfl
    have hdset : (NYUVP.init vf lf keep mat).dataset = List.replicate 1449 none := rfl
    have hkeep : (NYUVP.init vf lf keep mat).keep_in_mem = keep := rfl
    have hid2 := hid
    rw [hset] at hid2
    obtain ⟨j, hj, _⟩ := pyGet_some_pyIdx hid2
    rw [List.length_range] at hj
    have hfresh : pyGet (NYUVP.init vf lf keep mat).dataset key = some none := by
      rw [hdset]
      exact pyGet_replicate_none hj
    simp only [hid, hfresh, hkeep] at h
    cases ha : assemble fs (NYUVP.init vf lf keep mat) id with
    | error e => simp only [ha] at h; cases h
    | ok p =>
      obtain ⟨datum, qs0⟩ := p
      simp only [ha, Except.ok.injEq, Prod.mk.injEq] at h
      obtain ⟨hd, hst, hq⟩ := h
      subst hd hq
      exact ⟨id, rfl, ha, hst.symm⟩

/-- Decomposition of a successful record assembly: the record's fields
come from the two parsed files and the optional MAT provider, and the
query log is exactly one `images` and one `depths` access when the
provider is configured, empty otherwise. -/
theorem assemble_ok {fs : FS} {st : NYUVP} {id : ℕ} {r : Record}
    {qs : List Query} (h : assemble fs st id = .ok (r, qs)) :
    r.id = id ∧
    (∃ lp, pyGet st.labelled_line_files (id : ℤ) = some lp ∧
       mapExcept (parseLineRow lp) (fs.lineContent lp) = .ok r.labelled_lines) ∧
    (∃ vp, pyGet st.vps_files (id : ℤ) = some vp ∧
       parseVpsFile (fs.vpsContent vp) = .ok r.VPs) ∧
    ((∀ m, st.data_mat = some m →
        r.image = some (m.images id) ∧ r.depth = some (m.depths id) ∧
        qs = [Query.images id, Query.depths id]) ∧
     (st.data_mat = none →
        r.image = none ∧ r.depth = none ∧ qs = [])) := by
  unfold assemble at h
  cases hl : pyGet st.labelled_line_files (id : ℤ) with
  | none => simp only [hl] at h; cases h
  | some lp =>
    simp only [hl] at h
    cases hm : mapExcept (parseLineRow lp) (fs.lineContent lp) with
    | error e => simp only [hm] at h; cases h
    | ok lls =>
      simp only [hm] at h
      cases hv : pyGet st.vps_files (id : ℤ) with
      | none => simp only [hv] at h; cases h
      | some vp =>
        simp only [hv] at h
        cases hp : parseVpsFile (fs.vpsContent vp) with
        | error e => simp only [hp] at h; cases h
        | ok vps =>
          simp only [hp, Except.ok.injEq, Prod.mk.injEq] at h
          obtain ⟨hr, hq⟩ := h
          subst hq
          cases hdm : st.data_mat with
          | none =>
            rw [hdm] at hr
            subst hr
            refine ⟨rfl, ⟨lp, rfl, hm⟩, ⟨vp, rfl, hp⟩, ?_, ?_⟩
            · intro m2 hm2
              cases hm2
            · intro _
              exact ⟨rfl, rfl, rfl⟩
          | some m =>
            rw [hdm] at hr
            subst hr
            refine ⟨rfl, ⟨lp, rfl, hm⟩, ⟨vp, rfl, hp⟩, ?_, ?_⟩
            · intro m2 hm2
              cases hm2
              exact ⟨rfl, rfl, rfl⟩
            · intro hc
              cases hc

/-- A cache hit: `__getitem__` returns the stored record, leaves the state
unchanged, performs no MAT query and reads no file. -/
theorem getitem_hit (fs : FS) (st : NYUVP) (key : ℤ) (r : Record) (id : ℕ)
    (hid : pyGet st.set_ids key = some id)
    (hhit : pyGet st.dataset key = some (some r)) :
    getitem fs st key = .ok (r, st, []) := by
  unfold getitem
  simp only [hid, hhit]

/-- `pyIdx` at a natural subscript below the length is that subscript. -/
theorem pyIdx_natCast {n k : ℕ} (hk : k < n) : pyIdx n (k : ℤ) = some k := by
  unfold pyIdx
  rw [if_pos (Int.natCast_nonneg k), if_pos (by exact_mod_cast hk)]
  simp

/-- Claim C1: for every record returned by `get` (first access on a fresh
object), the stored view directions correspond index-by-index to the
stored vanishing points: `VD[i] = normalize(Kinv @ (x_i, y_i, 1))` where
`(x_i, y_i)` are the `float`-parsed columns 1 and 2 of data row `i` of
the `vps` file (taken before the final VP re-normalisation pass), each
`VD[i]` has unit Euclidean norm, and `Kinv` is the exact inverse of the
fixed intrinsics matrix `K`. -/
theorem claim_C1 (fs : FS) (vf lf : List String) (keep : Bool)
    (mat : Option MatData) (key : ℤ) (r : Record) (st2 : NYUVP)
    (qs : List Query)
    (h : getitem fs (NYUVP.init vf lf keep mat) key = .ok (r, st2, qs)) :
    r.realVDs.length = r.VPs.length ∧
    (∀ v, KApply (kinvApply v) = v) ∧
    ∃ id p, pyGet (NYUVP.init vf lf keep mat).set_ids key = some id ∧
      pyGet (NYUVP.init vf lf keep mat).vps_files (id : ℤ) = some p ∧
      ∀ (i : ℕ) (vp : Vec3), r.VPs[i]? = some vp →
        r.realVDs[i]? = some (rnormalize (kinvApply vp)) ∧
        rnorm (rnormalize (kinvApply vp)) = 1 ∧
        ∃ row sx sy, (fs.vpsContent p)[i + 1]? = some row ∧
          row[1]? = some sx ∧ row[2]? = some sy ∧
          parseFloat sx = some vp.x ∧ parseFloat sy = some vp.y ∧
          vp.z = 1 := by
  obtain ⟨id, hid, ha, hst⟩ := getitem_init_ok h
  obtain ⟨hrid, hll, ⟨p, hp, hpv⟩, hmat⟩ := assemble_ok ha
  obtain ⟨hne, hz, hpoint⟩ := parseVpsFile_ok hpv
  refine ⟨by simp [Record.realVDs], KApply_kinvApply, id, p, hid, hp, ?_⟩
  intro i vp hvp
  have hvz : vp.z = 1 := hz vp (List.getElem?_mem hvp)
  have hkz : (kinvApply vp).z = 1 := by rw [kinvApply_z]; exact hvz
  have hns : normSq (kinvApply vp) ≠ 0 := by
    have h1 := one_le_normSq_of_z_eq_one _ hkz
    intro h0
    rw [h0] at h1
    norm_num at h1
  refine ⟨?_, rnorm_rnormalize _ hns, ?_⟩
  · unfold Record.realVDs
    rw [List.getElem?_map, hvp]
    rfl
  · obtain ⟨row, hrow, hrowok⟩ := hpoint i vp hvp
    obtain ⟨sx, sy, h1, h2, x, y, hx, hy, hveq⟩ := parseVpRow_ok hrowok
    subst hveq
    exact ⟨row, sx, sy, hrow, h1, h2, hx, hy, rfl⟩

/-- Claim C1 exercised on the end-to-end scenario record. -/
theorem claim_C1_witness :
    getitem fsEx stEx 0 = .ok (rEx, stExAfter, []) ∧
    rEx.realVDs.length = rEx.VPs.length :=
  ⟨by with_unfolding_all rfl,
   (claim_C1 fsEx ["pv"] ["pl"] true none 0 rEx stExAfter []
      (by with_unfolding_all rfl)).1⟩

/-- Claim C2: every row of the VPs array of a returned record is the
original homogeneous row divided by its own Euclidean norm (the final
defensive re-normalisation pass of lines 140-141), and therefore has
Euclidean norm 1. -/
theorem claim_C2 (fs : FS) (vf lf : List String) (keep : Bool)
    (mat : Option MatData) (key : ℤ) (r : Record) (st2 : NYUVP)
    (qs : List Query)
    (h : getitem fs (NYUVP.init vf lf keep mat) key = .ok (r, st2, qs)) :
    r.realVPs.length = r.VPs.length ∧
    (∀ (i : ℕ) (vp : Vec3), r.VPs[i]? = some vp →
      r.realVPs[i]? = some (rnormalize vp)) ∧
    ∀ w ∈ r.realVPs, rnorm w = 1 := by
  obtain ⟨id, hid, ha, hst⟩ := getitem_init_ok h
  obtain ⟨hrid, hll, ⟨p, hp, hpv⟩, hmat⟩ := assemble_ok ha
  obtain ⟨hne, hz, hpoint⟩ := parseVpsFile_ok hpv
  refine ⟨by simp [Record.realVPs], ?_, ?_⟩
  · intro i vp hvp
    unfold Record.realVPs
    rw [List.getElem?_map, hvp]
    rfl
  · intro w hw
    unfold Record.realVPs at hw
    obtain ⟨vp, hvp, hwe⟩ := List.mem_map.mp hw
    have hvz : vp.z = 1 := hz vp hvp
    have hns : normSq vp ≠ 0 := by
      have h1 := one_le_normSq_of_z_eq_one _ hvz
      intro h0
      rw [h0] at h1
      norm_num at h1
    rw [← hwe]
    exact rnorm_rnormalize _ hns

/-- Claim C2 exercised on the end-to-end scenario record. -/
theorem claim_C2_witness :
    getitem fsEx stEx 0 = .ok (rEx, stExAfter, []) ∧
    rnorm (rnormalize ⟨100, 200, 1⟩) = 1 :=
  ⟨by with_unfolding_all rfl,
   (claim_C2 fsEx ["pv"] ["pl"] true none 0 rEx stExAfter []
      (by with_unfolding_all rfl)).2.2
     (rnormalize ⟨100, 200, 1⟩)
     (List.mem_map_of_mem rnormalize (by simp [rEx]))⟩

/-- `__getitem__` depends on the subscript only through the Python index
normalisation against the two list lengths. -/
theorem getitem_key_congr (fs : FS) (st : NYUVP) (k1 k2 : ℤ)
    (h1 : pyIdx st.set_ids.length k1 = pyIdx st.set_ids.length k2)
    (h2 : pyIdx st.dataset.length k1 = pyIdx st.dataset.length k2) :
    getitem fs st k1 = getitem fs st k2 := by
  unfold getitem pyGet pySet
  rw [h1, h2]

/-- Counterexample to claim C3: on a fully populated directory layout,
`get(-1)` does not raise at all — Python negative indexing makes it
return a record, namely the one with id 1448. -/
theorem claim_C3_cex :
    gotOk (getitem fsEx stBig (-1)) = true ∧
    gotId (getitem fsEx stBig (-1)) = some 1448 := by
  constructor
  · with_unfolding_all rfl
  · with_unfolding_all rfl

/-- Claim C3 as amended: `length()` is 1449; `get(1449)` raises the range
error (`IndexError`); but `get(-1)` does not raise — by Python negative
indexing it behaves exactly like `get(1448)`. -/
theorem claim_C3_amended (fs : FS) (vf lf : List String) (keep : Bool)
    (mat : Option MatData) :
    (NYUVP.init vf lf keep mat).len = 1449 ∧
    getitem fs (NYUVP.init vf lf keep mat) 1449 = .error .indexError ∧
    getitem fs (NYUVP.init vf lf keep mat) (-1) =
      getitem fs (NYUVP.init vf lf keep mat) 1448 := by
  have hset : (NYUVP.init vf lf keep mat).set_ids = List.range 1449 := rfl
  have hdset : (NYUVP.init vf lf keep mat).dataset =
      List.replicate 1449 none := rfl
  refine ⟨by simp [NYUVP.len, NYUVP.init], ?_, ?_⟩
  · have hnone : pyGet (NYUVP.init vf lf keep mat).set_ids 1449 = none := by
      rw [hset]
      exact pyGet_range_eq_none (by decide)
    unfold getitem
    simp only [hnone]
  · apply getitem_key_congr
    · rw [hset, List.length_range]
      decide
    · rw [hdset, List.length_replicate]
      decide

/-- Claim C4: the labelled-lines row parser visits slots 1..4 in order,
stops at the first slot whose `x1` field is empty, and returns exactly
the segments of the maximal populated prefix — between 1 and 4 of them,
each parsed from the slot at the same index. -/
theorem claim_C4 (fp : String) (row : LineRow) (segs : List Seg)
    (h : parseLineRow fp row = .ok segs) :
    1 ≤ segs.length ∧ segs.length ≤ 4 ∧
    (∀ (i : ℕ) (seg : Seg), segs[i]? = some seg →
      ∃ s, row.slots[i]? = some s ∧ s.x1 ≠ "" ∧ parseSlot fp s = .ok seg) ∧
    (segs.length < 4 → ∃ s, row.slots[segs.length]? = some s ∧ s.x1 = "") :=
  parseLineRow_ok h

/-- Claim C4 exercised on the end-to-end scenario row
`line1_x1=1, line1_y1=2, line1_x2=3, line1_y2=4, line2_x1=""`: exactly
one segment `[1, 2, 3, 4]`. -/
theorem claim_C4_witness :
    parseLineRow "pl" rowEx = .ok [⟨1, 2, 3, 4⟩] ∧
    1 ≤ ([(⟨1, 2, 3, 4⟩ : Seg)]).length :=
  ⟨by with_unfolding_all rfl,
   (claim_C4 "pl" rowEx [⟨1, 2, 3, 4⟩] (by with_unfolding_all rfl)).1⟩

/-- Claim C5: for every valid ordinal `k` in `[0, 1449)`, the record
returned by `get(k)` has its `id` field equal to `k`. -/
theorem claim_C5 (fs : FS) (vf lf : List String) (keep : Bool)
    (mat : Option MatData) (k : ℕ) (hk : k < 1449) (r : Record)
    (st2 : NYUVP) (qs : List Query)
    (h : getitem fs (NYUVP.init vf lf keep mat) (k : ℤ) = .ok (r, st2, qs)) :
    r.id = k := by
  obtain ⟨id, hid, ha, hst⟩ := getitem_init_ok h
  obtain ⟨hrid, _, _, _⟩ := assemble_ok ha
  have hset : (NYUVP.init vf lf keep mat).set_ids = List.range 1449 := rfl
  rw [hset, pyGet_range (pyIdx_natCast hk), Option.some.injEq] at hid
  rw [hrid, hid]

/-- Claim C5 exercised at ordinal 0 of the end-to-end scenario. -/
theorem claim_C5_witness :
    getitem fsEx stEx 0 = .ok (rEx, stExAfter, []) ∧ rEx.id = 0 :=
  ⟨by with_unfolding_all rfl,
   claim_C5 fsEx ["pv"] ["pl"] true none 0 (by decide) rEx stExAfter []
     (by with_unfolding_all rfl)⟩

/-- Claim C6: with caching enabled, the first `get(k)` stores the
assembled record in cache slot `k` and a repeated call returns that very
record with the state unchanged, no MAT query and no re-assembly; with
caching disabled the state is left untouched (no cache slot is ever
populated) and a repeated call just recomputes the same value. -/
theorem claim_C6 (fs : FS) (vf lf : List String) (keep : Bool)
    (mat : Option MatData) (key : ℤ) (r : Record) (st2 : NYUVP)
    (qs : List Query)
    (h : getitem fs (NYUVP.init vf lf keep mat) key = .ok (r, st2, qs)) :
    (keep = true →
      pyGet st2.dataset key = some (some r) ∧
      getitem fs st2 key = .ok (r, st2, [])) ∧
    (keep = false →
      st2 = NYUVP.init vf lf keep mat ∧
      getitem fs st2 key = .ok (r, st2, qs)) := by
  obtain ⟨id, hid, ha, hst⟩ := getitem_init_ok h
  constructor
  · intro hk
    subst hk
    rw [if_pos rfl] at hst
    subst hst
    have hset : (NYUVP.init vf lf true mat).set_ids = List.range 1449 := rfl
    have hid2 := hid
    rw [hset] at hid2
    obtain ⟨j, hj, _⟩ := pyGet_some_pyIdx hid2
    rw [List.length_range] at hj
    have hhit : pyGet ({ NYUVP.init vf lf true mat with
        dataset := pySet (NYUVP.init vf lf true mat).dataset key (some r) }).dataset
        key = some (some r) := by
      show pyGet (pySet (NYUVP.init vf lf true mat).dataset key (some r)) key =
        some (some r)
      exact pyGet_pySet_self _ (by rw [show (NYUVP.init vf lf true mat).dataset.length = 1449 from by simp [NYUVP.init]]; exact hj)
    exact ⟨hhit, getitem_hit fs _ key r id hid hhit⟩
  · intro hk
    subst hk
    rw [if_neg (by simp)] at hst
    subst hst
    exact ⟨rfl, h⟩

/-- Claim C6 exercised: with caching on, the repeat call serves the slot;
with caching off, the state is unchanged. -/
theorem claim_C6_witness :
    getitem fsEx stEx 0 = .ok (rEx, stExAfter, []) ∧
    pyGet stExAfter.dataset 0 = some (some rEx) ∧
    getitem fsEx stExAfter 0 = .ok (rEx, stExAfter, []) ∧
    getitem fsEx stExNoCache 0 = .ok (rEx, stExNoCache, []) := by
  have h1 : getitem fsEx stEx 0 = .ok (rEx, stExAfter, []) := by
    with_unfolding_all rfl
  have h2 : getitem fsEx stExNoCache 0 = .ok (rEx, stExNoCache, []) := by
    with_unfolding_all rfl
  have hc := claim_C6 fsEx ["pv"] ["pl"] true none 0 rEx stExAfter [] h1
  have hd := claim_C6 fsEx ["pv"] ["pl"] false none 0 rEx stExNoCache [] h2
  exact ⟨h1, (hc.1 rfl).1, (hc.1 rfl).2, (hd.2 rfl).2⟩

/-- Claim C9: when the MAT provider is configured, assembling the record
for an identifier queries it exactly once for the image plane and once
for the depth plane of that identifier (in that order), and a cached
repeat access performs no query at all; when no provider is configured it
is never queried and the image and depth fields are absent. -/
theorem claim_C9 (fs : FS) (vf lf : List String) (keep : Bool)
    (mat : Option MatData) (key : ℤ) (id : ℕ) (r : Record) (st2 : NYUVP)
    (qs : List Query)
    (hid : pyGet (NYUVP.init vf lf keep mat).set_ids key = some id)
    (h : getitem fs (NYUVP.init vf lf keep mat) key = .ok (r, st2, qs)) :
    (∀ m, mat = some m →
      qs = [Query.images id, Query.depths id] ∧
      r.image = some (m.images id) ∧ r.depth = some (m.depths id)) ∧
    (mat = none → qs = [] ∧ r.image = none ∧ r.depth = none) ∧
    (keep = true → getitem fs st2 key = .ok (r, st2, [])) := by
  obtain ⟨id2, hid2, ha, hst⟩ := getitem_init_ok h
  rw [hid] at hid2
  injection hid2 with hid2
  subst hid2
  obtain ⟨hrid, hll, hvps, hmats, hmatn⟩ := assemble_ok ha
  have hdm : (NYUVP.init vf lf keep mat).data_mat = mat := rfl
  refine ⟨?_, ?_, ?_⟩
  · intro m hm
    obtain ⟨hi, hd, hq⟩ := hmats m (by rw [hdm, hm])
    exact ⟨hq, hi, hd⟩
  · intro hm
    obtain ⟨hi, hd, hq⟩ := hmatn (by rw [hdm, hm])
    exact ⟨hq, hi, hd⟩
  · intro hk
    subst hk
    rw [if_pos rfl] at hst
    subst hst
    have hset : (NYUVP.init vf lf true mat).set_ids = List.range 1449 := rfl
    have hid3 := hid
    rw [hset] at hid3
    obtain ⟨j, hj, _⟩ := pyGet_some_pyIdx hid3
    rw [List.length_range] at hj
    have hhit : pyGet ({ NYUVP.init vf lf true mat with
        dataset := pySet (NYUVP.init vf lf true mat).dataset key (some r) }).dataset
        key = some (some r) := by
      show pyGet (pySet (NYUVP.init vf lf true mat).dataset key (some r)) key =
        some (some r)
      exact pyGet_pySet_self _ (by rw [show (NYUVP.init vf lf true mat).dataset.length = 1449 from by simp [NYUVP.init]]; exact hj)
    exact getitem_hit fs _ key r id hid hhit

/-- Claim C9 exercised with and without a configured provider. -/
theorem claim_C9_witness :
    getitem fsEx stExMat 0 =
      .ok (rExMat, stExMatAfter, [Query.images 0, Query.depths 0]) ∧
    (rExMat.image = some (matEx.images 0) ∧
     rExMat.depth = some (matEx.depths 0)) ∧
    (getitem fsEx stEx 0 = .ok (rEx, stExAfter, []) ∧
     rEx.image = none ∧ rEx.depth = none) := by
  have hm : getitem fsEx stExMat 0 =
      .ok (rExMat, stExMatAfter, [Query.images 0, Query.depths 0]) := by
    with_unfolding_all rfl
  have hn : getitem fsEx stEx 0 = .ok (rEx, stExAfter, []) := by
    with_unfolding_all rfl
  have hidm : pyGet (NYUVP.init ["pv"] ["pl"] true (some matEx)).set_ids 0 =
      some 0 := by
    with_unfolding_all rfl
  have hidn : pyGet (NYUVP.init ["pv"] ["pl"] true none).set_ids 0 =
      some 0 := by
    with_unfolding_all rfl
  have h9m := claim_C9 fsEx ["pv"] ["pl"] true (some matEx) 0 0 rExMat
    stExMatAfter [Query.images 0, Query.depths 0] hidm hm
  have h9n := claim_C9 fsEx ["pv"] ["pl"] true none 0 0 rEx stExAfter []
    hidn hn
  exact ⟨hm, ⟨(h9m.1 matEx rfl).2.1, (h9m.1 matEx rfl).2.2⟩,
    hn, (h9n.2.1 rfl).2.1, (h9n.2.1 rfl).2.2⟩

/-- Counterexample to claim C7: a `vps` file with the non-numeric text
`12a` in column 1 does fail the access — but the raised exception is the
`ValueError` of `float`, whose payload is only the offending field text:
it does not include the file path (`"pv"`), contradicting the claim that
the parse error includes the file path and row. -/
theorem claim_C7_cex :
    getitem fsBadVps (NYUVP.init ["pv"] ["pl"] true none) 0 =
      .error (.valueError "12a") ∧
    ("pv" ∈ Err.payload (.valueError "12a") → False) := by
  constructor
  · with_unfolding_all rfl
  · intro hmem
    simp [Err.payload] at hmem

/-- Claim C7 as amended: a non-numeric coordinate in column 1 or 2 of a
`vps` data row aborts the access with the `float` `ValueError`, whose
payload names the offending field text but not the file path; the corrupt
sentinel `433q` in a `line{i}_y2` field aborts the access with the
`AssertionError` whose payload is exactly the labelled-lines file path
(but no row/field); in both cases no record is produced — the access
returns an error outright, independently of caching mode and of the MAT
provider. -/
theorem claim_C7_amended (keep : Bool) (mat : Option MatData) :
    (getitem fsBadVps (NYUVP.init ["pv"] ["pl"] keep mat) 0 =
        .error (.valueError "12a") ∧
      Err.payload (.valueError "12a") = ["12a"] ∧
      ("pv" ∈ Err.payload (.valueError "12a") → False)) ∧
    (getitem fsSentinel (NYUVP.init ["pv"] ["pl"] keep mat) 0 =
        .error (.assertError "pl") ∧
      Err.payload (.assertError "pl") = ["pl"]) := by
  refine ⟨⟨?_, rfl, ?_⟩, ⟨?_, rfl⟩⟩
  · with_unfolding_all rfl
  · intro hmem
    simp [Err.payload] at hmem
  · with_unfolding_all rfl

/-- Claim C10: the back-projected vector `Kinv @ (x, y, 1)` always has
third component exactly 1 (the last row of `K`, hence of `Kinv`, is
`(0, 0, 1)`), so its squared norm is at least 1 and its Euclidean norm is
strictly positive: the normalisation division in the view-direction
computation never divides by zero, for arbitrary real pixel coordinates
as well as for every parsed homogeneous row. -/
theorem claim_C10 (x y : ℝ) (v : Vec3) (h : v.z = 1) :
    (kinvHomR x y).z = 1 ∧ 1 ≤ rnorm (kinvHomR x y) ∧
    (kinvApply v).z = 1 ∧ 1 ≤ normSq (kinvApply v) ∧
    0 < vnorm (kinvApply v) ∧ vnorm (kinvApply v) ≠ 0 := by
  have hkz : (kinvApply v).z = 1 := by rw [kinvApply_z]; exact h
  have hsq : 1 ≤ normSq (kinvApply v) := one_le_normSq_of_z_eq_one _ hkz
  have hns : normSq (kinvApply v) ≠ 0 := by
    intro h0
    rw [h0] at hsq
    norm_num at hsq
  have hpos : 0 < vnorm (kinvApply v) := vnorm_pos_of_normSq_ne_zero _ hns
  refine ⟨rfl, ?_, hkz, hsq, hpos, ne_of_gt hpos⟩
  show (1 : ℝ) ≤ Real.sqrt (((x - (cx_rgb : ℝ)) / (fx_rgb : ℝ)) ^ 2 +
    ((y - (cy_rgb : ℝ)) / (fy_rgb : ℝ)) ^ 2 + 1 ^ 2)
  have hsum : (1 : ℝ) ≤ ((x - (cx_rgb : ℝ)) / (fx_rgb : ℝ)) ^ 2 +
      ((y - (cy_rgb : ℝ)) / (fy_rgb : ℝ)) ^ 2 + 1 ^ 2 := by
    nlinarith [sq_nonneg ((x - (cx_rgb : ℝ)) / (fx_rgb : ℝ)),
      sq_nonneg ((y - (cy_rgb : ℝ)) / (fy_rgb : ℝ))]
  calc (1 : ℝ) = Real.sqrt 1 := (Real.sqrt_one).symm
    _ ≤ _ := Real.sqrt_le_sqrt hsum

/-- Claim C10 exercised at the pixel `(100, 200)`. -/
theorem claim_C10_witness :
    ((⟨100, 200, 1⟩ : Vec3).z = 1) ∧
    (kinvApply ⟨100, 200, 1⟩).z = 1 ∧
    0 < vnorm (kinvApply ⟨100, 200, 1⟩) :=
  ⟨rfl, (claim_C10 100 200 ⟨100, 200, 1⟩ rfl).2.2.1,
   (claim_C10 100 200 ⟨100, 200, 1⟩ rfl).2.2.2.2.1⟩

end Nyu
